import Mathlib

/-!
Verification development for the starspot rotation-period code.

The Python source under verification is `starspot/starspot.py`
(`RotationModel` with its `ls_rotation`, `acf_rotation` and `pdm_rotation`
methods).  The helper modules `phase_dispersion_minimization`
(`phi`, `calc_phase`, `phase_bins`, `sj2`, `s2`, `estimate_uncertainty`) and
`rotation_tools` (`simple_acf`, `get_peak_statistics`) are not part of the
sources available here, so they are modelled from the specification, as noted
in the doc comment of each such definition.  All floating point numbers are
embedded as rationals; a non-finite float (NaN/Inf) is modelled by the
explicit marker `FVal.nonfin`.
-/

namespace Starspot

/-- Errors surfaced by the embedded operations.  `assertNaN` models the
Python `assert` on non-finite flux, `indexError` the out-of-bounds access
`xpeaks[0]` on an empty peak list, `valueError` the `ValueError` raised by
`np.argmin` on an empty sequence, `invalidPeriod` and `invalidNbins` the
InvalidInput rejections of the spec-modelled fold and statistic. -/
inductive SSError where
  | assertNaN
  | indexError
  | valueError
  | invalidPeriod
  | invalidNbins
deriving DecidableEq, Repr

instance {ε α : Type} [DecidableEq ε] [DecidableEq α] : DecidableEq (Except ε α) :=
  fun u w =>
  match u, w with
  | .error e, .error f =>
    if h : e = f then .isTrue (by rw [h])
    else .isFalse (by intro hh; cases hh; exact h rfl)
  | .error _, .ok _ => .isFalse (by intro hh; cases hh)
  | .ok _, .error _ => .isFalse (by intro hh; cases hh)
  | .ok v, .ok v' =>
    if h : v = v' then .isTrue (by rw [h])
    else .isFalse (by intro hh; cases hh; exact h rfl)

/-- A float value: either a finite rational or the non-finite marker
(models NaN or infinity in a flux array). -/
inductive FVal where
  | fin : ℚ → FVal
  | nonfin : FVal
deriving DecidableEq, Repr

/-- Models `np.isfinite` on one value. -/
def FVal.isfinite : FVal → Bool
  | .fin _ => true
  | .nonfin => false

/-- The rational carried by a finite value (junk value 0 for the non-finite
marker; no theorem below evaluates arithmetic on non-finite flux). -/
def FVal.val : FVal → ℚ
  | .fin q => q
  | .nonfin => 0

/-- Mean of a list of rationals (`np.mean`); 0 on the empty list. -/
def listMean (x : List ℚ) : ℚ := x.sum / (x.length : ℚ)

/-- Models `np.linspace a b n`. -/
def np_linspace (a b : ℚ) (n : ℕ) : List ℚ :=
  if n ≤ 1 then (List.range n).map (fun _ => a)
  else (List.range n).map (fun i => a + (b - a) * (i : ℚ) / ((n : ℚ) - 1))

/-- The pure phase fold: `frac ((t_i - t_0) / p)` for each time stamp. -/
def foldPhases (p : ℚ) (t : List ℚ) : List ℚ :=
  t.map (fun ti => Int.fract ((ti - t.headD 0) / p))

/-- Modelled from the spec: `calc_phase` from the missing module
`phase_dispersion_minimization`.  Section 4.2 (PhaseFolder): maps each
timestamp to `((times[i] - times[0]) / period) mod 1`, always in `[0, 1)`,
and fails with InvalidPeriod when the period is not positive. -/
def calc_phase (p : ℚ) (t : List ℚ) : Except SSError (List ℚ) :=
  if p ≤ 0 then .error .invalidPeriod else .ok (foldPhases p t)

/-- Modelled from the spec: `sj2` from the missing module
`phase_dispersion_minimization`.  Section 4.3 step 3: population variance of
the values `x` about the supplied mean, normalized by the supplied count
`n` (the Python signature is `sj2(x, x_mean, N)`). -/
def sj2 (x : List ℚ) (x_mean : ℚ) (n : ℚ) : ℚ :=
  (x.map (fun xi => (xi - x_mean) ^ 2)).sum / n

/-- Modelled from the spec: `s2` from the missing module
`phase_dispersion_minimization`.  Section 4.3 step 4: pooled within-bin
variance `Σ (n_j - 1) · sj²_j / (Σ n_j - M)` with `M` the number of occupied
bins; `none` (an undefined-statistic marker, not a crash) when the
denominator is not positive.  The trailing bin-count argument mirrors the
Python signature `s2(Ns, sj2s, nbins)`. -/
def s2 (Ns sj2s : List ℚ) (_nbins : ℕ) : Option ℚ :=
  let M : ℚ := ((Ns.filter (fun n => decide (0 < n))).length : ℚ)
  let den := Ns.sum - M
  if den ≤ 0 then none
  else some ((((Ns.zip sj2s).map (fun pr => (pr.1 - 1) * pr.2)).sum) / den)

/-- The flux values falling in phase bin `j` of `nbins` equal-width bins of
`[0, 1)` (section 4.3 step 2: half-open bins `[j/nbins, (j+1)/nbins)`). -/
def binFlux (nbins j : ℕ) (phase x : List ℚ) : List ℚ :=
  ((phase.zip x).filter
    (fun pr => decide ((j : ℚ) / (nbins : ℚ) ≤ pr.1) &&
               decide (pr.1 < ((j : ℚ) + 1) / (nbins : ℚ)))).map Prod.snd

/-- The phase values falling in phase bin `j` (companion of `binFlux`). -/
def binPhase (nbins j : ℕ) (phase x : List ℚ) : List ℚ :=
  ((phase.zip x).filter
    (fun pr => decide ((j : ℚ) / (nbins : ℚ) ≤ pr.1) &&
               decide (pr.1 < ((j : ℚ) + 1) / (nbins : ℚ)))).map Prod.fst

/-- The six outputs of `phase_bins`, in the order of the Python return
tuple `(x_means, bins, Ns, sj2s, x_binned, phase_binned)`. -/
structure PhaseBinsOut where
  x_means : List ℚ
  bins : List ℚ
  Ns : List ℚ
  sj2s : List ℚ
  x_binned : List (List ℚ)
  phase_binned : List (List ℚ)
deriving DecidableEq, Repr

/-- Modelled from the spec: `phase_bins` from the missing module
`phase_dispersion_minimization`.  Section 4.3 step 2 and the PhaseBinning
data model: partition `[0,1)` into `nbins` equal-width half-open bins and
report per-bin count, mean flux and population variance about the bin's own
mean; an empty bin reports mean 0 and variance 0. -/
def phase_bins (nbins : ℕ) (phase x : List ℚ) : PhaseBinsOut :=
  let xb := (List.range nbins).map (fun j => binFlux nbins j phase x)
  { x_means := xb.map (fun b => if b.length = 0 then 0 else listMean b)
    bins := (List.range (nbins + 1)).map (fun j => (j : ℚ) / (nbins : ℚ))
    Ns := xb.map (fun b => (b.length : ℚ))
    sj2s := xb.map (fun b =>
      if b.length = 0 then 0 else sj2 b (listMean b) (b.length : ℚ))
    x_binned := xb
    phase_binned := (List.range nbins).map (fun j => binPhase nbins j phase x) }

/-- Modelled from the spec: `phi` from the missing module
`phase_dispersion_minimization`.  Section 4.3: fold at the trial period,
bin by phase, pooled within-bin variance divided by the population variance
of the unfolded flux.  InvalidInput (nbins < 2, period ≤ 0) is rejected
before any computation; a non-positive pooled denominator yields the
degenerate marker `none` rather than a number. -/
def phi (nbins : ℕ) (p : ℚ) (t x : List ℚ) : Except SSError (Option ℚ) :=
  if nbins < 2 then .error .invalidNbins
  else
    match calc_phase p t with
    | .error e => .error e
    | .ok phase =>
      let pb := phase_bins nbins phase x
      match s2 pb.Ns pb.sj2s nbins with
      | none => .ok none
      | some v => .ok (some (v / sj2 x (listMean x) (x.length : ℚ)))

/-- Whether index `i` is a strict interior local maximum of `y`, exactly the
comprehension predicate in `ls_rotation`:
`power[i-1] < power[i] and power[i+1] < power[i]` for `i` in
`range(1, len - 1)`. -/
def isPeakAt (y : List ℚ) (i : ℕ) : Bool :=
  decide (1 ≤ i) && decide (i + 1 < y.length) &&
  decide (y.getD (i - 1) 0 < y.getD i 0) &&
  decide (y.getD (i + 1) 0 < y.getD i 0)

/-- The peak indices of a sampled curve, embedding the list comprehension in
`ls_rotation` (`starspot.py`). -/
def ls_peaks (y : List ℚ) : List ℕ :=
  (List.range y.length).filter (isPeakAt y)

/-- Maximum of a list of rationals (`max` of a nonempty array; junk 0 on an
empty list). -/
def maxQ (l : List ℚ) : ℚ := l.foldl max (l.headD 0)

/-- The period-selection tail of `ls_rotation`: with `ps = 1/freq`, return 0
when no peak exists, else `ps[power == max(power[peaks])][0]` (the first
grid point whose power equals the largest peak power). -/
def ls_select (ps power : List ℚ) : ℚ :=
  match ls_peaks power with
  | [] => 0
  | pk =>
    let mx := maxQ (pk.map (fun i => power.getD i 0))
    match (List.range power.length).filter (fun i => decide (power.getD i 0 = mx)) with
    | [] => 0
    | i :: _ => ps.getD i 0

/-- The mutable attribute record of a `RotationModel` instance: the light
curve stored by `__init__` plus every attribute written by the three
period-measuring methods under verification. -/
structure RotationState where
  time : List ℚ
  flux : List FVal
  flux_err : List ℚ
  freq : List ℚ := []
  power : List ℚ := []
  ls_period : ℚ := 0
  lags : List ℚ := []
  acf : List ℚ := []
  acf_period : ℚ := 0
  pdm_nbins : ℕ := 0
  period_grid : List ℚ := []
  phis : List (Option ℚ) := []
  pdm_period : ℚ := 0
  sigma : ℚ := 0
  mu : ℚ := 0
  a : ℚ := 0
  b : ℚ := 0
  period_err : ℚ := 0
  phase : List ℚ := []
deriving DecidableEq, Repr

/-- The first statement block of `ls_rotation`: store the supplied frequency
grid and power (when both are given), else the default linspace frequency
grid. -/
def lsFreqStep (st : RotationState) (min_period max_period : ℚ)
    (input_freq input_power : Option (List ℚ)) : RotationState :=
  match input_freq, input_power with
  | some f, some pw => { st with freq := f, power := pw }
  | _, _ => { st with freq := np_linspace (1 / max_period) (1 / min_period) 100000 }

/-- Embedding of `RotationModel.ls_rotation` (`starspot.py`).  The
Lomb-Scargle power computation is external (out of scope per the spec), so
it is passed as the function argument `lspower` taking the time array, the
finite flux values and the frequency grid.  Control flow follows the
source: frequency-grid setup, early return of `input_ls_period`, the
non-finite-flux assertion, power computation, peak search and period
selection. -/
def ls_rotation (st : RotationState) (min_period max_period : ℚ)
    (input_freq input_power : Option (List ℚ)) (input_ls_period : Option ℚ)
    (lspower : List ℚ → List ℚ → List ℚ → List ℚ) :
    Except SSError (RotationState × ℚ) :=
  let st1 := lsFreqStep st min_period max_period input_freq input_power
  match input_ls_period with
  | some v => .ok ({ st1 with ls_period := v }, v)
  | none =>
    if st1.flux.all FVal.isfinite then
      let pw := lspower st1.time (st1.flux.map FVal.val) st1.freq
      let ps := st1.freq.map (fun f => 1 / f)
      let period := ls_select ps pw
      .ok ({ st1 with power := pw, ls_period := period }, period)
    else .error .assertNaN

/-- Ranking order used for "height"-sorted peaks: descending by y, ties
broken by ascending x (spec section 4.1). -/
def peakRank (u v : ℚ × ℚ) : Prop :=
  v.2 < u.2 ∨ (u.2 = v.2 ∧ u.1 ≤ v.1)

instance : DecidableRel peakRank := fun u v => by
  unfold peakRank; exact inferInstance

instance : IsTrans (ℚ × ℚ) peakRank where
  trans u v w huv hvw := by
    rcases huv with h1 | ⟨h1, h1x⟩ <;> rcases hvw with h2 | ⟨h2, h2x⟩
    · exact Or.inl (h2.trans h1)
    · exact Or.inl (h2 ▸ h1)
    · exact Or.inl (h1 ▸ h2)
    · exact Or.inr ⟨h1.trans h2, h1x.trans h2x⟩

instance : IsTotal (ℚ × ℚ) peakRank where
  total u v := by
    rcases lt_trichotomy u.2 v.2 with h | h | h
    · exact Or.inr (Or.inl h)
    · rcases le_total u.1 v.1 with hx | hx
      · exact Or.inl (Or.inr ⟨h, hx⟩)
      · exact Or.inr (Or.inr ⟨h.symm, hx⟩)
    · exact Or.inl (Or.inl h)

/-- Modelled from the spec: the peak set built inside `get_peak_statistics`
from the missing module `rotation_tools`.  Sections 4.1 and 4.6: the strict
interior local maxima of the sampled curve `(x, y)` as (x, y) pairs; empty
when no peak exists. -/
def peakPairs (x y : List ℚ) : List (ℚ × ℚ) :=
  (ls_peaks y).map (fun i => (x.getD i 0, y.getD i 0))

/-- Modelled from the spec (continued): the sorted peak statistics returned
by `get_peak_statistics` with `sort_by="height"`. -/
def get_peak_statistics (x y : List ℚ) : List ℚ × List ℚ :=
  let sorted := List.insertionSort peakRank (peakPairs x y)
  (sorted.map Prod.fst, sorted.map Prod.snd)

/-- The lag-cutoff mask of `acf_rotation`: keep the (lag, acf) pairs with
lag strictly above the cutoff (`m = lags > cutoff`). -/
def maskGT (cutoff : ℚ) (xs ys : List ℚ) : List ℚ × List ℚ :=
  let pairs := (xs.zip ys).filter (fun pr => decide (cutoff < pr.1))
  (pairs.map Prod.fst, pairs.map Prod.snd)

/-- Embedding of `RotationModel.acf_rotation` (`starspot.py`) downstream of
the external `simple_acf` call: the raw autocorrelation computation is
external (out of scope per the spec), so its output curve `(lags, acf)` is
passed in.  The source masks lags above the cutoff, extracts height-sorted
peaks, stores the masked curve, and returns `xpeaks[0]` — an IndexError
when there is no peak. -/
def acf_rotation (st : RotationState) (cutoff : ℚ) (lags acf : List ℚ) :
    Except SSError (RotationState × ℚ) :=
  let m := maskGT cutoff lags acf
  let stats := get_peak_statistics m.1 m.2
  match stats.1 with
  | [] => .error .indexError
  | xp :: _ => .ok ({ st with lags := m.1, acf := m.2, acf_period := xp }, xp)

/-- Running first-minimum accumulator for `argminO` over the defined
entries of the list. -/
def argminAux : List (Option ℚ) → ℕ → Option (ℕ × ℚ) → Option (ℕ × ℚ)
  | [], _, best => best
  | none :: rest, i, best => argminAux rest (i + 1) best
  | some v :: rest, i, best =>
    match best with
    | none => argminAux rest (i + 1) (some (i, v))
    | some pr =>
      if v < pr.2 then argminAux rest (i + 1) (some (i, v))
      else argminAux rest (i + 1) (some pr)

/-- Models `np.argmin` over the dispersion profile: index of the first
smallest defined entry, skipping degenerate markers; a ValueError (as numpy
raises on an empty sequence) when no defined entry exists. -/
def argminO (l : List (Option ℚ)) : Except SSError ℕ :=
  match argminAux l 0 none with
  | none => .error .valueError
  | some pr => .ok pr.1

/-- The grid-evaluation loop of `pdm_rotation`: evaluate phi at every grid
point in order, surfacing the first error, otherwise collecting the
per-point results (degenerate markers included). -/
def mapPhis (nbins : ℕ) (t x : List ℚ) : List ℚ → Except SSError (List (Option ℚ))
  | [] => .ok []
  | p :: rest =>
    match phi nbins p t x with
    | .error e => .error e
    | .ok v =>
      match mapPhis nbins t x rest with
      | .error e => .error e
      | .ok vs => .ok (v :: vs)

/-- Embedding of `RotationModel.pdm_rotation` (`starspot.py`).  The
nonlinear Gaussian fit `estimate_uncertainty` lives in the missing module
`phase_dispersion_minimization`; per spec section 4.5 it returns
`(err, mu, a, b)` with `err = |sigma|` and `mu` the mean of the fitted
Gaussian, and is passed here as the function argument `fit` applied to the
period grid, the raw phi values and the argmin period.  The source stores
nbins and the grid, evaluates phi on every grid point, takes the argmin,
calls the fit, stores its outputs, computes the phase fold at the chosen
period, and returns `(pdm_period, err)`. -/
def pdm_rotation (st : RotationState) (grid : List ℚ) (nbins : ℕ)
    (fit : List ℚ → List ℚ → ℚ → ℚ × ℚ × ℚ × ℚ) :
    Except SSError (RotationState × ℚ × ℚ) :=
  let st1 := { st with pdm_nbins := nbins, period_grid := grid }
  match mapPhis nbins st.time (st.flux.map FVal.val) grid with
  | .error e => .error e
  | .ok phis =>
    let st2 := { st1 with phis := phis }
    match argminO phis with
    | .error e => .error e
    | .ok ind =>
      let pdm_period := grid.getD ind 0
      let fr := fit grid (phis.map (fun o => o.getD 0)) pdm_period
      match calc_phase pdm_period st.time with
      | .error e => .error e
      | .ok ph =>
        .ok ({ st2 with
                 pdm_period := pdm_period
                 sigma := fr.1
                 mu := fr.2.1
                 a := fr.2.2.1
                 b := fr.2.2.2
                 period_err := fr.1
                 phase := ph }, pdm_period, fr.1)

/-! Concrete fixtures used by witness and counterexample theorems. -/

/-- A five-point light curve with period 1/2 structure. -/
def t0 : List ℚ := [0, 1/4, 1/2, 3/4, 1]

def x0 : List ℚ := [0, 1, 0, 1, 0]

def st0 : RotationState :=
  { time := t0, flux := x0.map FVal.fin, flux_err := [0, 0, 0, 0, 0] }

def g0 : List ℚ := [1/2, 1]

/-- A concrete stand-in for the external nonlinear fit: reports error 7 and
mean 100 regardless of the profile. -/
def fit0 : List ℚ → List ℚ → ℚ → ℚ × ℚ × ℚ × ℚ := fun _ _ _ => (7, 100, 3, 4)

/-- A state whose flux contains a non-finite value. -/
def stNaN : RotationState :=
  { time := [0, 1], flux := [FVal.fin 1, FVal.nonfin], flux_err := [0, 0] }

/-- A state with a small finite light curve. -/
def stF : RotationState :=
  { time := [0, 1, 2], flux := [FVal.fin 1, FVal.fin 2, FVal.fin 3],
    flux_err := [0, 0, 0] }

/-- A three-point light curve on which phi is defined (used for concrete
pdm runs). -/
def st1f : RotationState :=
  { time := [0, 1/4, 1/2], flux := [FVal.fin 1, FVal.fin 2, FVal.fin 3],
    flux_err := [0, 0, 0] }

/-- The end state of `pdm_rotation st1f [1] 2 fit0`. -/
def pdmSt1f : RotationState :=
  { st1f with
      pdm_nbins := 2
      period_grid := [1]
      phis := [some (3/8)]
      pdm_period := 1
      sigma := 7
      mu := 100
      a := 3
      b := 4
      period_err := 7
      phase := [0, 1/4, 1/2] }

/-- A trivial external power function. -/
def lsp0 : List ℚ → List ℚ → List ℚ → List ℚ := fun _ _ _ => []

/-- An external power function returning a strictly increasing curve (which
has no interior local maximum). -/
def lspInc : List ℚ → List ℚ → List ℚ → List ℚ := fun _ _ _ => [0, 1, 2]

/-! Helper lemmas. -/

theorem getD_map_range {α : Type} (n j : ℕ) (f : ℕ → α) (d : α) (h : j < n) :
    (((List.range n).map f).getD j d) = f j := by
  rw [List.getD_eq_getElem?_getD, List.getElem?_map, List.getElem?_range h]
  rfl

theorem lsFreqStep_flux (st : RotationState) (mn mx : ℚ)
    (ifr ipw : Option (List ℚ)) : (lsFreqStep st mn mx ifr ipw).flux = st.flux := by
  unfold lsFreqStep
  cases ifr <;> cases ipw <;> rfl

/-- Generic success-shape lemma for `pdm_rotation`: when the grid
evaluation, the argmin and the final fold all succeed, the call returns the
grid point at the argmin index together with the fit's first output. -/
theorem pdm_rotation_ok (st : RotationState) (grid : List ℚ) (nbins : ℕ)
    (fit : List ℚ → List ℚ → ℚ → ℚ × ℚ × ℚ × ℚ) (phis : List (Option ℚ))
    (ind : ℕ) (ph : List ℚ)
    (h1 : mapPhis nbins st.time (st.flux.map FVal.val) grid = .ok phis)
    (h2 : argminO phis = .ok ind)
    (h3 : calc_phase (grid.getD ind 0) st.time = .ok ph) :
    pdm_rotation st grid nbins fit =
      .ok ({ st with
               pdm_nbins := nbins
               period_grid := grid
               phis := phis
               pdm_period := grid.getD ind 0
               sigma := (fit grid (phis.map (fun o => o.getD 0)) (grid.getD ind 0)).1
               mu := (fit grid (phis.map (fun o => o.getD 0)) (grid.getD ind 0)).2.1
               a := (fit grid (phis.map (fun o => o.getD 0)) (grid.getD ind 0)).2.2.1
               b := (fit grid (phis.map (fun o => o.getD 0)) (grid.getD ind 0)).2.2.2
               period_err := (fit grid (phis.map (fun o => o.getD 0)) (grid.getD ind 0)).1
               phase := ph },
           grid.getD ind 0,
           (fit grid (phis.map (fun o => o.getD 0)) (grid.getD ind 0)).1) := by
  simp only [pdm_rotation, h1, h2, h3]

/-! Concrete evaluation lemmas (rational arithmetic is evaluated by
`norm_num`, since kernel reduction cannot unfold `Nat.gcd`-based `Rat`
normalization). -/

theorem calc_phase_eval1 : calc_phase 1 [0, 1/4, 1/2] = .ok [0, 1/4, 1/2] := by
  rw [calc_phase, if_neg (by norm_num), foldPhases]
  simp only [List.map, List.headD]
  norm_num [Int.fract]

theorem calc_phase_eval2 : calc_phase 1 [0, 1/2] = .ok [0, 1/2] := by
  rw [calc_phase, if_neg (by norm_num), foldPhases]
  simp only [List.map, List.headD]
  norm_num [Int.fract]

theorem s2_eval_none :
    s2 (phase_bins 2 [0, 1/2] [1, 2]).Ns (phase_bins 2 [0, 1/2] [1, 2]).sj2s 2 =
      none := by
  norm_num [s2, phase_bins, binFlux, sj2, listMean, List.range_succ]

theorem phi_eval1 : phi 2 1 [0, 1/4, 1/2] [1, 2, 3] = .ok (some (3/8)) := by
  rw [phi, if_neg (by norm_num), calc_phase_eval1]
  norm_num [phase_bins, binFlux, s2, sj2, listMean, List.range_succ]
  rw [if_neg (by decide)]
  norm_num

theorem phi_eval_none : phi 2 1 [0, 1/2] [1, 2] = .ok none := by
  rw [phi, if_neg (by norm_num), calc_phase_eval2]
  simp only []
  rw [s2_eval_none]

theorem mapPhis_eval1 :
    mapPhis 2 st1f.time (st1f.flux.map FVal.val) [1] = .ok [some (3/8)] := by
  show mapPhis 2 [0, 1/4, 1/2] [1, 2, 3] [1] = .ok [some (3/8)]
  rw [mapPhis, phi_eval1]
  rfl

theorem mapPhis_eval_none : mapPhis 2 [0, 1/2] [1, 2] [1] = .ok [none] := by
  rw [mapPhis, phi_eval_none]
  rfl

theorem pdm_run_eval : pdm_rotation st1f [1] 2 fit0 = .ok (pdmSt1f, 1, 7) :=
  pdm_rotation_ok st1f [1] 2 fit0 [some (3/8)] 0 [0, 1/4, 1/2]
    mapPhis_eval1 rfl calc_phase_eval1

theorem ls_run_eval :
    ls_rotation stF 1 2 (some [1, 2, 4]) (some [9, 9, 9]) none lspInc =
      .ok ({ stF with freq := [1, 2, 4], power := [0, 1, 2], ls_period := 0 },
           0) := rfl

/-! ### C8: phase folding -/

/-- C8: for every time array and every period > 0, the fold returns a
same-length array with `phases[i] = frac ((times[i] - times[0]) / period)`,
and every returned phase lies in `[0, 1)`. -/
theorem calc_phase_fold_spec (p : ℚ) (t : List ℚ) (hp : 0 < p) :
    calc_phase p t = .ok (foldPhases p t) ∧
    (foldPhases p t).length = t.length ∧
    ∀ i, i < t.length →
      (foldPhases p t).getD i 0 = Int.fract ((t.getD i 0 - t.headD 0) / p) ∧
      0 ≤ (foldPhases p t).getD i 0 ∧ (foldPhases p t).getD i 0 < 1 := by
  refine ⟨by simp [calc_phase, not_le.mpr hp], by simp [foldPhases], ?_⟩
  intro i hi
  have hget : (foldPhases p t).getD i 0 =
      Int.fract ((t.getD i 0 - t.headD 0) / p) := by
    rw [foldPhases, List.getD_eq_getElem?_getD, List.getElem?_map,
      List.getElem?_eq_getElem hi, List.getD_eq_getElem?_getD,
      List.getElem?_eq_getElem hi]
    rfl
  exact ⟨hget, by rw [hget]; exact Int.fract_nonneg _,
    by rw [hget]; exact Int.fract_lt_one _⟩

/-- Witness for C8 at period 2 and times `[0, 1, 3]`. -/
theorem calc_phase_fold_spec_witness :
    calc_phase 2 [0, 1, 3] = .ok (foldPhases 2 [0, 1, 3]) :=
  (calc_phase_fold_spec 2 [0, 1, 3] (by norm_num)).1

/-! ### C10: ls_rotation with a supplied period -/

/-- C10: when `input_ls_period` is supplied, `ls_rotation` stores it as the
Lomb-Scargle period and returns it unchanged, for every state — in
particular for flux arrays containing non-finite values — without reaching
the finiteness assertion, the periodogram computation or the peak search;
only the frequency/power setup step touches the state, and it leaves the
flux unchanged. -/
theorem ls_rotation_input_period_short_circuits (st : RotationState)
    (mn mx : ℚ) (ifr ipw : Option (List ℚ)) (v : ℚ)
    (lsp : List ℚ → List ℚ → List ℚ → List ℚ) :
    ls_rotation st mn mx ifr ipw (some v) lsp =
      .ok ({ lsFreqStep st mn mx ifr ipw with ls_period := v }, v) ∧
    (lsFreqStep st mn mx ifr ipw).flux = st.flux := by
  refine ⟨rfl, ?_⟩
  unfold lsFreqStep
  cases ifr <;> cases ipw <;> rfl

/-! ### C6: InvalidInput handling -/

/-- Counterexample to C6: a flux array with a non-finite entry does not make
`ls_rotation` fail when `input_ls_period` is supplied — the call succeeds
and returns the supplied period, so non-finite flux is not reported before
the operation completes. -/
theorem invalid_input_fail_fast_counterexample :
    ls_rotation stNaN 1 2 (some [1]) (some [1]) (some 5) lsp0 =
      .ok ({ stNaN with freq := [1], power := [1], ls_period := 5 }, 5) ∧
    stNaN.flux.all FVal.isfinite = false := ⟨rfl, rfl⟩

/-- C6 as amended: non-finite flux makes `ls_rotation` fail with the
assertion error only on the path that actually computes a periodogram
(`input_ls_period = none`); the spec-modelled fold rejects a non-positive
period with InvalidPeriod and the spec-modelled statistic rejects
`nbins < 2`; `pdm_rotation` on a zero-element grid fails with the argmin
ValueError (there is no dedicated EmptyGrid check in the source) without
evaluating phi anywhere. -/
theorem invalid_input_fail_fast_amended :
    (∀ (st : RotationState) (mn mx : ℚ) (ifr ipw : Option (List ℚ))
        (lsp : List ℚ → List ℚ → List ℚ → List ℚ),
        st.flux.all FVal.isfinite = false →
        ls_rotation st mn mx ifr ipw none lsp = .error .assertNaN) ∧
    (∀ (p : ℚ) (t : List ℚ), p ≤ 0 → calc_phase p t = .error .invalidPeriod) ∧
    (∀ (n : ℕ) (p : ℚ) (t x : List ℚ), n < 2 →
        phi n p t x = .error .invalidNbins) ∧
    (∀ (st : RotationState) (nbins : ℕ)
        (fit : List ℚ → List ℚ → ℚ → ℚ × ℚ × ℚ × ℚ),
        pdm_rotation st [] nbins fit = .error .valueError) := by
  refine ⟨?_, ?_, ?_, ?_⟩
  · intro st mn mx ifr ipw lsp h
    simp only [ls_rotation, lsFreqStep_flux, h]
    rfl
  · intro p t h
    simp [calc_phase, h]
  · intro n p t x h
    simp [phi, h]
  · intro st nbins fit
    rfl

/-- Witness for C6 (amended) at concrete inputs. -/
theorem invalid_input_fail_fast_witness :
    ls_rotation stNaN 1 2 none none none lsp0 = .error .assertNaN ∧
    calc_phase 0 [1] = .error .invalidPeriod ∧
    phi 1 1 [0] [1] = .error .invalidNbins ∧
    pdm_rotation stF [] 3 fit0 = .error .valueError :=
  ⟨invalid_input_fail_fast_amended.1 stNaN 1 2 none none lsp0 (by decide),
   invalid_input_fail_fast_amended.2.1 0 [1] (by norm_num),
   invalid_input_fail_fast_amended.2.2.1 1 1 [0] [1] (by norm_num),
   invalid_input_fail_fast_amended.2.2.2 stF 3 fit0⟩

/-! ### C7: DegenerateResult handling -/

/-- Counterexample to C7: with a strictly increasing power curve (zero
peaks), `ls_rotation` returns the numeric value 0 as the period — not a
"no result" value distinct from a numeric zero — and `acf_rotation` on a
peakless autocorrelation curve raises an index error instead of yielding a
non-fatal empty result. -/
theorem degenerate_result_counterexample :
    (ls_rotation stF 1 2 (some [1, 2, 4]) (some [9, 9, 9]) none lspInc).map
        (fun pr => pr.2) = .ok 0 ∧
    acf_rotation stF 0 [1, 2, 3] [3, 2, 1] = .error .indexError := by
  refine ⟨?_, rfl⟩
  rw [ls_run_eval]
  rfl

/-- C7 as amended: when zero peaks are found `ls_rotation` reports the
numeric period 0 and `acf_rotation` fails with an index error (neither
yields a distinct non-fatal "no result" value); the spec-modelled pooled
variance does yield the undefined-statistic marker `none` when its
denominator is not positive, phi carries that marker as a non-error
outcome, and a grid evaluation carries per-point markers through while the
rest of the grid completes. -/
theorem degenerate_result_amended :
    (∀ ps power : List ℚ, ls_peaks power = [] → ls_select ps power = 0) ∧
    (∀ (st : RotationState) (cutoff : ℚ) (lags acf : List ℚ),
        ls_peaks (maskGT cutoff lags acf).2 = [] →
        acf_rotation st cutoff lags acf = .error .indexError) ∧
    (∀ (Ns sj2s : List ℚ) (n : ℕ),
        Ns.sum - ((Ns.filter (fun v => decide (0 < v))).length : ℚ) ≤ 0 →
        s2 Ns sj2s n = none) ∧
    (∀ (nbins : ℕ) (p : ℚ) (t x ph : List ℚ), 2 ≤ nbins →
        calc_phase p t = .ok ph →
        s2 (phase_bins nbins ph x).Ns (phase_bins nbins ph x).sj2s nbins = none →
        phi nbins p t x = .ok none) ∧
    (∀ (nbins : ℕ) (t x grid : List ℚ) (phis : List (Option ℚ)),
        mapPhis nbins t x grid = .ok phis →
        phis.length = grid.length ∧
        ∀ i, i < grid.length →
          phi nbins (grid.getD i 0) t x = .ok (phis.getD i none)) := by
  refine ⟨?_, ?_, ?_, ?_, ?_⟩
  · intro ps power h
    simp [ls_select, h]
  · intro st cutoff lags acf h
    simp [acf_rotation, get_peak_statistics, peakPairs, h]
  · intro Ns sj2s n h
    simp only [s2]
    rw [if_pos h]
  · intro nbins p t x ph h2 hcp hs2
    simp [phi, hcp, hs2, Nat.not_lt.mpr h2]
  · intro nbins t x grid
    induction grid with
    | nil =>
      intro phis h
      simp only [mapPhis] at h
      cases h
      exact ⟨rfl, fun i hi => absurd hi (Nat.not_lt_zero i)⟩
    | cons a l ih =>
      intro phis h
      simp only [mapPhis] at h
      cases hfa : phi nbins a t x with
      | error e => rw [hfa] at h; cases h
      | ok v =>
        rw [hfa] at h
        cases hl : mapPhis nbins t x l with
        | error e => rw [hl] at h; cases h
        | ok vs =>
          rw [hl] at h
          cases h
          obtain ⟨ihlen, ihpt⟩ := ih vs hl
          refine ⟨by simp [ihlen], ?_⟩
          intro i hi
          cases i with
          | zero => simpa using hfa
          | succ j =>
            have hj : j < l.length := by simpa using hi
            simpa using ihpt j hj

/-- Witness for C7 (amended) at concrete inputs. -/
theorem degenerate_result_witness :
    ls_select [1, 2] [5, 4] = 0 ∧
    acf_rotation stF 5 [1, 2] [1, 2] = .error .indexError ∧
    s2 [1, 1] [0, 0] 2 = none ∧
    phi 2 1 [0, 1/2] [1, 2] = .ok none ∧
    (([none] : List (Option ℚ)).length = [(1 : ℚ)].length ∧
      ∀ i, i < [(1 : ℚ)].length →
        phi 2 ([(1 : ℚ)].getD i 0) [0, 1/2] [1, 2] =
          .ok (([none] : List (Option ℚ)).getD i none)) :=
  ⟨degenerate_result_amended.1 [1, 2] [5, 4] (by decide),
   degenerate_result_amended.2.1 stF 5 [1, 2] [1, 2] (by decide),
   degenerate_result_amended.2.2.1 [1, 1] [0, 0] 2 (by norm_num),
   degenerate_result_amended.2.2.2.1 2 1 [0, 1/2] [1, 2] [0, 1/2]
     (by norm_num) calc_phase_eval2 s2_eval_none,
   degenerate_result_amended.2.2.2.2 2 [0, 1/2] [1, 2] [1] [none]
     mapPhis_eval_none⟩

/-! ### C1: the period reported by pdm_rotation -/

/-- Counterexample to C1: on a concrete light curve and grid (with the
spec-modelled fit instantiated to one reporting mean 100), `pdm_rotation`
succeeds, stores the fitted mean 100 in `mu`, yet returns the raw
grid-argmin period 1 — the reported period is not the fitted mean μ. -/
theorem pdm_period_is_mu_counterexample :
    pdm_rotation st1f [1] 2 fit0 = .ok (pdmSt1f, 1, 7) ∧
    pdmSt1f.mu = 100 ∧ (1 : ℚ) ≠ 100 :=
  ⟨pdm_run_eval, rfl, by norm_num⟩

/-- C1 as amended: whenever the grid evaluation, the argmin and the final
fold succeed, `pdm_rotation` returns the raw grid-argmin period — the
period grid entry at the argmin of the dispersion profile — together with
the fit's error output (the |σ| of the spec-modelled fit), while the
fitted mean μ is only stored in the `mu` attribute, not returned. -/
theorem pdm_period_is_argmin_amended (st : RotationState) (grid : List ℚ)
    (nbins : ℕ) (fit : List ℚ → List ℚ → ℚ → ℚ × ℚ × ℚ × ℚ)
    (phis : List (Option ℚ)) (ind : ℕ) (ph : List ℚ)
    (h1 : mapPhis nbins st.time (st.flux.map FVal.val) grid = .ok phis)
    (h2 : argminO phis = .ok ind)
    (h3 : calc_phase (grid.getD ind 0) st.time = .ok ph) :
    (pdm_rotation st grid nbins fit).map (fun r => r.2.1) =
      .ok (grid.getD ind 0) ∧
    (pdm_rotation st grid nbins fit).map (fun r => r.2.2) =
      .ok (fit grid (phis.map (fun o => o.getD 0)) (grid.getD ind 0)).1 ∧
    (pdm_rotation st grid nbins fit).map (fun r => r.1.mu) =
      .ok (fit grid (phis.map (fun o => o.getD 0)) (grid.getD ind 0)).2.1 := by
  rw [pdm_rotation_ok st grid nbins fit phis ind ph h1 h2 h3]
  exact ⟨rfl, rfl, rfl⟩

/-- Witness for C1 (amended) at a concrete run. -/
theorem pdm_period_is_argmin_witness :
    (pdm_rotation st1f [1] 2 fit0).map (fun r => r.2.1) =
      .ok ([(1 : ℚ)].getD 0 0) ∧
    (pdm_rotation st1f [1] 2 fit0).map (fun r => r.2.2) =
      .ok (fit0 [1] ([some (3/8)].map (fun o => o.getD 0)) ([(1 : ℚ)].getD 0 0)).1 ∧
    (pdm_rotation st1f [1] 2 fit0).map (fun r => r.1.mu) =
      .ok (fit0 [1] ([some (3/8)].map (fun o => o.getD 0)) ([(1 : ℚ)].getD 0 0)).2.1 :=
  pdm_period_is_argmin_amended st1f [1] 2 fit0 [some (3/8)] 0 [0, 1/4, 1/2]
    mapPhis_eval1 rfl calc_phase_eval1

/-! ### C2: phi equals the pooled-variance ratio of the binning pipeline -/

/-- C2: for nbins ≥ 2 and a successful fold, `phi nbins p t x` equals the
pooled within-bin variance `s2` of the `phase_bins` outputs divided by the
total population variance `sj2 x (mean x) (len x)` (with the degenerate
marker carried through by `Option.map`). -/
theorem phi_is_pipeline_ratio (nbins : ℕ) (p : ℚ) (t x ph : List ℚ)
    (h2 : 2 ≤ nbins) (hcp : calc_phase p t = .ok ph) :
    phi nbins p t x =
      .ok ((s2 (phase_bins nbins ph x).Ns (phase_bins nbins ph x).sj2s nbins).map
        (fun v => v / sj2 x (listMean x) (x.length : ℚ))) := by
  cases hs2 : s2 (phase_bins nbins ph x).Ns (phase_bins nbins ph x).sj2s nbins with
  | none => simp [phi, Nat.not_lt.mpr h2, hcp, hs2]
  | some v => simp [phi, Nat.not_lt.mpr h2, hcp, hs2]

/-- Witness for C2 at nbins = 2, period 1, times `[0, 1/2]`, flux `[1, 3]`. -/
theorem phi_is_pipeline_ratio_witness :
    phi 2 1 [0, 1/2] [1, 3] =
      .ok ((s2 (phase_bins 2 [0, 1/2] [1, 3]).Ns
              (phase_bins 2 [0, 1/2] [1, 3]).sj2s 2).map
        (fun v => v / sj2 [1, 3] (listMean [1, 3]) (([1, 3] : List ℚ).length : ℚ))) :=
  phi_is_pipeline_ratio 2 1 [0, 1/2] [1, 3] [0, 1/2] (by norm_num) calc_phase_eval2

/-! ### C9: the stored light curve is immutable -/

/-- C9: each of the three period-measuring operations leaves the stored
light-curve arrays (time, flux, flux_err) unchanged in the returned state:
the light-curve triple of the output state always equals that of the input
state. -/
theorem light_curve_immutable :
    (∀ (st : RotationState) (mn mx : ℚ) (ifr ipw : Option (List ℚ))
        (ilsp : Option ℚ) (lsp : List ℚ → List ℚ → List ℚ → List ℚ),
      (ls_rotation st mn mx ifr ipw ilsp lsp).map
          (fun pr => (pr.1.time, pr.1.flux, pr.1.flux_err)) =
        (ls_rotation st mn mx ifr ipw ilsp lsp).map
          (fun _ => (st.time, st.flux, st.flux_err))) ∧
    (∀ (st : RotationState) (cutoff : ℚ) (lags acf : List ℚ),
      (acf_rotation st cutoff lags acf).map
          (fun pr => (pr.1.time, pr.1.flux, pr.1.flux_err)) =
        (acf_rotation st cutoff lags acf).map
          (fun _ => (st.time, st.flux, st.flux_err))) ∧
    (∀ (st : RotationState) (grid : List ℚ) (nbins : ℕ)
        (fit : List ℚ → List ℚ → ℚ → ℚ × ℚ × ℚ × ℚ),
      (pdm_rotation st grid nbins fit).map
          (fun pr => (pr.1.time, pr.1.flux, pr.1.flux_err)) =
        (pdm_rotation st grid nbins fit).map
          (fun _ => (st.time, st.flux, st.flux_err))) := by
  refine ⟨?_, ?_, ?_⟩
  · intro st mn mx ifr ipw ilsp lsp
    simp only [ls_rotation, lsFreqStep]
    repeat' split
    all_goals rfl
  · intro st cutoff lags acf
    simp only [acf_rotation]
    repeat' split
    all_goals rfl
  · intro st grid nbins fit
    simp only [pdm_rotation]
    repeat' split
    all_goals rfl

/-! ### C4: peak extraction invariants -/

theorem mem_ls_peaks_iff (y : List ℚ) (i : ℕ) :
    i ∈ ls_peaks y ↔ 1 ≤ i ∧ i + 1 < y.length ∧
      y.getD (i - 1) 0 < y.getD i 0 ∧ y.getD (i + 1) 0 < y.getD i 0 := by
  simp only [ls_peaks, List.mem_filter, List.mem_range, isPeakAt,
    Bool.and_eq_true, decide_eq_true_eq]
  constructor
  · rintro ⟨-, ⟨⟨h1, h2⟩, h3⟩, h4⟩
    exact ⟨h1, h2, h3, h4⟩
  · rintro ⟨h1, h2, h3, h4⟩
    exact ⟨by omega, ⟨⟨h1, h2⟩, h3⟩, h4⟩

theorem filter_range_eq_single (p : ℕ → Bool) :
    ∀ n k : ℕ, k < n → (∀ i, i < n → (p i = true ↔ i = k)) →
    (List.range n).filter p = [k] := by
  intro n
  induction n with
  | zero => intro k hk _; omega
  | succ m ih =>
    intro k hk hp
    rw [List.range_succ, List.filter_append]
    rcases Nat.lt_or_ge k m with hkm | hkm
    · have h1 : (List.range m).filter p = [k] :=
        ih k hkm (fun i hi => hp i (by omega))
      have h2 : p m = false := by
        cases hpm : p m with
        | true => exact absurd ((hp m (by omega)).mp hpm) (by omega)
        | false => rfl
      rw [h1]
      simp [List.filter, h2]
    · have hkeq : k = m := by omega
      subst hkeq
      have h1 : (List.range k).filter p = [] := by
        apply List.filter_eq_nil_iff.mpr
        intro a ha hpa
        exact absurd ((hp a (by
          have := List.mem_range.mp ha
          omega)).mp hpa) (by
          have := List.mem_range.mp ha
          omega)
      have h2 : p k = true := (hp k (by omega)).mpr rfl
      rw [h1]
      simp [List.filter, h2]

theorem getD_le_of_chain_up (y : List ℚ) :
    ∀ k : ℕ, (∀ j, j < k → y.getD j 0 < y.getD (j + 1) 0) →
    ∀ i, i ≤ k → y.getD i 0 ≤ y.getD k 0 := by
  intro k
  induction k with
  | zero =>
    intro _ i hi
    have : i = 0 := by omega
    subst this
    exact le_refl _
  | succ m ih =>
    intro hup i hi
    rcases Nat.lt_or_ge i (m + 1) with h | h
    · have h1 : y.getD i 0 ≤ y.getD m 0 :=
        ih (fun j hj => hup j (by omega)) i (by omega)
      exact h1.trans (le_of_lt (hup m (by omega)))
    · have : i = m + 1 := by omega
      subst this
      exact le_refl _

theorem getD_le_of_chain_down (y : List ℚ) (k : ℕ)
    (hdown : ∀ j, k ≤ j → j + 1 < y.length → y.getD (j + 1) 0 < y.getD j 0) :
    ∀ i, k ≤ i → i < y.length → y.getD i 0 ≤ y.getD k 0 := by
  intro i hki
  induction i, hki using Nat.le_induction with
  | base => intro _; exact le_refl _
  | succ n hn ihn =>
    intro hlen
    exact (le_of_lt (hdown n hn hlen)).trans (ihn (by omega))

/-- C4: every extracted peak index is an interior strict local maximum;
a strictly monotonically increasing curve and a strictly monotonically
decreasing curve have no peaks (boundary points never qualify); a strictly
increasing-then-decreasing curve of length at least 3 has exactly one peak,
located at its maximum. -/
theorem ls_peaks_strict_local_maxima :
    (∀ (y : List ℚ) (i : ℕ), i ∈ ls_peaks y →
        1 ≤ i ∧ i + 1 < y.length ∧
        y.getD (i - 1) 0 < y.getD i 0 ∧ y.getD (i + 1) 0 < y.getD i 0) ∧
    (∀ y : List ℚ, (∀ j, j + 1 < y.length → y.getD j 0 < y.getD (j + 1) 0) →
        ls_peaks y = []) ∧
    (∀ y : List ℚ, (∀ j, j + 1 < y.length → y.getD (j + 1) 0 < y.getD j 0) →
        ls_peaks y = []) ∧
    (∀ (y : List ℚ) (k : ℕ), 3 ≤ y.length → 1 ≤ k → k + 1 < y.length →
        (∀ j, j < k → y.getD j 0 < y.getD (j + 1) 0) →
        (∀ j, k ≤ j → j + 1 < y.length → y.getD (j + 1) 0 < y.getD j 0) →
        ls_peaks y = [k] ∧ ∀ i, i < y.length → y.getD i 0 ≤ y.getD k 0) := by
  refine ⟨?_, ?_, ?_, ?_⟩
  · intro y i h
    exact (mem_ls_peaks_iff y i).mp h
  · intro y hmono
    apply List.filter_eq_nil_iff.mpr
    intro a ha hpa
    have h := (mem_ls_peaks_iff y a).mp
      (List.mem_filter.mpr ⟨ha, hpa⟩)
    exact absurd (hmono a h.2.1) (not_lt.mpr (le_of_lt h.2.2.2))
  · intro y hmono
    apply List.filter_eq_nil_iff.mpr
    intro a ha hpa
    have h := (mem_ls_peaks_iff y a).mp
      (List.mem_filter.mpr ⟨ha, hpa⟩)
    have hstep : y.getD (a - 1 + 1) 0 < y.getD (a - 1) 0 := by
      apply hmono
      omega
    have haeq : a - 1 + 1 = a := by omega
    rw [haeq] at hstep
    exact absurd h.2.2.1 (not_lt.mpr (le_of_lt hstep))
  · intro y k hlen3 hk1 hklen hup hdown
    constructor
    · apply filter_range_eq_single
      · omega
      · intro i hi
        constructor
        · intro hpi
          have h := (mem_ls_peaks_iff y i).mp
            (List.mem_filter.mpr ⟨List.mem_range.mpr hi, hpi⟩)
          rcases Nat.lt_trichotomy i k with hik | hik | hik
          · exact absurd (hup i hik) (not_lt.mpr (le_of_lt h.2.2.2))
          · exact hik
          · have hstep : y.getD (i - 1 + 1) 0 < y.getD (i - 1) 0 := by
              apply hdown
              · omega
              · omega
            have haeq : i - 1 + 1 = i := by omega
            rw [haeq] at hstep
            exact absurd h.2.2.1 (not_lt.mpr (le_of_lt hstep))
        · intro hik
          subst hik
          have hleft : y.getD (i - 1) 0 < y.getD i 0 := by
            have := hup (i - 1) (by omega)
            have haeq : i - 1 + 1 = i := by omega
            rwa [haeq] at this
          have hright : y.getD (i + 1) 0 < y.getD i 0 :=
            hdown i (le_refl i) hklen
          simp only [isPeakAt, Bool.and_eq_true, decide_eq_true_eq]
          exact ⟨⟨⟨hk1, hklen⟩, hleft⟩, hright⟩
    · intro i hi
      rcases le_or_lt i k with h | h
      · exact getD_le_of_chain_up y k hup i h
      · exact getD_le_of_chain_down y k hdown i (le_of_lt h) hi

/-- Witness for C4 at concrete curves: `[0, 1, 0]` has the single peak at
index 1 (its maximum); `[0, 1, 2]` and `[2, 1, 0]` have no peaks. -/
theorem ls_peaks_strict_local_maxima_witness :
    (1 ≤ 1 ∧ 1 + 1 < ([0, 1, 0] : List ℚ).length ∧
      ([0, 1, 0] : List ℚ).getD 0 0 < ([0, 1, 0] : List ℚ).getD 1 0 ∧
      ([0, 1, 0] : List ℚ).getD 2 0 < ([0, 1, 0] : List ℚ).getD 1 0) ∧
    ls_peaks [0, 1, 2] = [] ∧
    ls_peaks [2, 1, 0] = [] ∧
    (ls_peaks [0, 1, 0] = [1] ∧
      ∀ i, i < ([0, 1, 0] : List ℚ).length →
        ([0, 1, 0] : List ℚ).getD i 0 ≤ ([0, 1, 0] : List ℚ).getD 1 0) :=
  ⟨ls_peaks_strict_local_maxima.1 [0, 1, 0] 1 (by decide),
   ls_peaks_strict_local_maxima.2.1 [0, 1, 2] (by
     intro j hj
     have : j < 2 := by simp at hj; omega
     interval_cases j <;> decide),
   ls_peaks_strict_local_maxima.2.2.1 [2, 1, 0] (by
     intro j hj
     have : j < 2 := by simp at hj; omega
     interval_cases j <;> decide),
   ls_peaks_strict_local_maxima.2.2.2 [0, 1, 0] 1 (by decide) (by decide)
     (by decide)
     (by
       intro j hj
       interval_cases j
       decide)
     (by
       intro j hj hjl
       have : j < 2 := by simp at hjl; omega
       interval_cases j
       decide)⟩

/-! ### C3: population variance and pooled variance -/

theorem phase_bins_Ns_getD (nbins j : ℕ) (phase x : List ℚ) (h : j < nbins) :
    (phase_bins nbins phase x).Ns.getD j 0 =
      ((binFlux nbins j phase x).length : ℚ) := by
  simp only [phase_bins, List.map_map]
  exact getD_map_range nbins j _ 0 h

theorem phase_bins_sj2s_getD (nbins j : ℕ) (phase x : List ℚ) (h : j < nbins) :
    (phase_bins nbins phase x).sj2s.getD j 0 =
      (if (binFlux nbins j phase x).length = 0 then 0
       else sj2 (binFlux nbins j phase x) (listMean (binFlux nbins j phase x))
         ((binFlux nbins j phase x).length : ℚ)) := by
  simp only [phase_bins, List.map_map]
  exact getD_map_range nbins j _ 0 h

theorem phase_bins_x_means_getD (nbins j : ℕ) (phase x : List ℚ) (h : j < nbins) :
    (phase_bins nbins phase x).x_means.getD j 0 =
      (if (binFlux nbins j phase x).length = 0 then 0
       else listMean (binFlux nbins j phase x)) := by
  simp only [phase_bins, List.map_map]
  exact getD_map_range nbins j _ 0 h

theorem phase_bins_x_binned_getD (nbins j : ℕ) (phase x : List ℚ) (h : j < nbins) :
    (phase_bins nbins phase x).x_binned.getD j [] = binFlux nbins j phase x := by
  simp only [phase_bins]
  exact getD_map_range nbins j _ [] h

/-- C3: the per-bin statistic is the population (1/n_j) variance of the bin
about the bin's own mean; a single-point bin's variance is 0; bins with
fewer than 2 points contribute zero to the pooled numerator; and on a
positive denominator the pooled variance is
`Σ (n_j - 1) · sj²_j / (Σ n_j - M)` with `M` the number of occupied bins. -/
theorem dispersion_statistic_normalization :
    (∀ (nbins j : ℕ) (phase x : List ℚ), j < nbins →
        0 < (phase_bins nbins phase x).Ns.getD j 0 →
        (phase_bins nbins phase x).sj2s.getD j 0 =
          (((phase_bins nbins phase x).x_binned.getD j []).map
            (fun xi => (xi - (phase_bins nbins phase x).x_means.getD j 0) ^ 2)).sum /
            (phase_bins nbins phase x).Ns.getD j 0) ∧
    (∀ b : List ℚ, b.length = 1 → sj2 b (listMean b) (b.length : ℚ) = 0) ∧
    (∀ (nbins j : ℕ) (phase x : List ℚ), j < nbins →
        (phase_bins nbins phase x).Ns.getD j 0 ≤ 1 →
        ((phase_bins nbins phase x).Ns.getD j 0 - 1) *
          (phase_bins nbins phase x).sj2s.getD j 0 = 0) ∧
    (∀ (Ns sj2s : List ℚ) (n : ℕ),
        0 < Ns.sum - ((Ns.filter (fun v => decide (0 < v))).length : ℚ) →
        s2 Ns sj2s n =
          some ((((Ns.zip sj2s).map (fun pr => (pr.1 - 1) * pr.2)).sum) /
            (Ns.sum - ((Ns.filter (fun v => decide (0 < v))).length : ℚ)))) := by
  refine ⟨?_, ?_, ?_, ?_⟩
  · intro nbins j phase x hj hpos
    rw [phase_bins_Ns_getD nbins j phase x hj] at hpos
    have hne : (binFlux nbins j phase x).length ≠ 0 := by
      intro h0
      rw [h0] at hpos
      exact absurd hpos (by norm_num)
    rw [phase_bins_sj2s_getD nbins j phase x hj, if_neg hne,
      phase_bins_x_means_getD nbins j phase x hj, if_neg hne,
      phase_bins_x_binned_getD nbins j phase x hj,
      phase_bins_Ns_getD nbins j phase x hj]
    rfl
  · intro b hb
    obtain ⟨v, rfl⟩ := List.length_eq_one.mp hb
    simp [sj2, listMean]
  · intro nbins j phase x hj hle
    rw [phase_bins_Ns_getD nbins j phase x hj] at hle ⊢
    rw [phase_bins_sj2s_getD nbins j phase x hj]
    cases hn : (binFlux nbins j phase x).length with
    | zero => simp
    | succ m =>
      rw [hn] at hle
      have hnat : (m + 1 : ℕ) ≤ 1 := by exact_mod_cast hle
      have hm : m = 0 := by omega
      subst hm
      norm_num
  · intro Ns sj2s n h
    simp only [s2]
    rw [if_neg (not_le.mpr h)]

/-- Witness for C3 at a concrete binning: nbins = 2, phases `[0, 1/4, 1/2]`,
flux `[1, 2, 3]` (bin 0 holds two points, bin 1 holds one point). -/
theorem dispersion_statistic_normalization_witness :
    ((phase_bins 2 [0, 1/4, 1/2] [1, 2, 3]).sj2s.getD 0 0 =
      (((phase_bins 2 [0, 1/4, 1/2] [1, 2, 3]).x_binned.getD 0 []).map
        (fun xi => (xi - (phase_bins 2 [0, 1/4, 1/2] [1, 2, 3]).x_means.getD 0 0) ^ 2)).sum /
        (phase_bins 2 [0, 1/4, 1/2] [1, 2, 3]).Ns.getD 0 0) ∧
    sj2 [5] (listMean [5]) (([5] : List ℚ).length : ℚ) = 0 ∧
    (((phase_bins 2 [0, 1/4, 1/2] [1, 2, 3]).Ns.getD 1 0 - 1) *
      (phase_bins 2 [0, 1/4, 1/2] [1, 2, 3]).sj2s.getD 1 0 = 0) ∧
    s2 [2, 1] [0, 0] 2 =
      some (((([(2 : ℚ), 1].zip [0, 0]).map (fun pr => (pr.1 - 1) * pr.2)).sum) /
        (([(2 : ℚ), 1].sum) - ((([(2 : ℚ), 1].filter (fun v => decide (0 < v))).length : ℚ)))) :=
  ⟨dispersion_statistic_normalization.1 2 0 [0, 1/4, 1/2] [1, 2, 3] (by omega)
     (by
       rw [phase_bins_Ns_getD 2 0 [0, 1/4, 1/2] [1, 2, 3] (by omega)]
       norm_num [binFlux]),
   dispersion_statistic_normalization.2.1 [5] (by decide),
   dispersion_statistic_normalization.2.2.1 2 1 [0, 1/4, 1/2] [1, 2, 3] (by omega)
     (by
       rw [phase_bins_Ns_getD 2 1 [0, 1/4, 1/2] [1, 2, 3] (by omega)]
       norm_num [binFlux]),
   dispersion_statistic_normalization.2.2.2 [2, 1] [0, 0] 2 (by norm_num)⟩

/-! ### C5: acf_rotation returns the tallest peak past the cutoff -/

theorem maskGT_fst_mem (cutoff : ℚ) (xs ys : List ℚ) (v : ℚ)
    (h : v ∈ (maskGT cutoff xs ys).1) : cutoff < v := by
  simp only [maskGT, List.mem_map, List.mem_filter] at h
  obtain ⟨pr, ⟨-, hdec⟩, rfl⟩ := h
  exact of_decide_eq_true hdec

theorem maskGT_length_eq (cutoff : ℚ) (xs ys : List ℚ) :
    (maskGT cutoff xs ys).1.length = (maskGT cutoff xs ys).2.length := by
  simp [maskGT]

theorem peakPairs_fst_mem (x y : List ℚ) (hlen : x.length = y.length)
    (pq : ℚ × ℚ) (h : pq ∈ peakPairs x y) : pq.1 ∈ x := by
  simp only [peakPairs, List.mem_map] at h
  obtain ⟨i, hi, rfl⟩ := h
  have hb := (mem_ls_peaks_iff y i).mp hi
  have hix : i < x.length := by omega
  rw [List.getD_eq_getElem?_getD, List.getElem?_eq_getElem hix]
  simp only [Option.getD_some]
  exact List.getElem_mem hix

/-- The head of the height-sorted peak statistics dominates every peak:
its y is maximal, and among equal-y peaks its x is minimal. -/
theorem get_peak_statistics_head (x y : List ℚ) (xp : ℚ) (rest : List ℚ)
    (h : (get_peak_statistics x y).1 = xp :: rest) :
    ∃ yp, (xp, yp) ∈ peakPairs x y ∧
      ∀ pq ∈ peakPairs x y, pq.2 ≤ yp ∧ (pq.2 = yp → xp ≤ pq.1) := by
  simp only [get_peak_statistics] at h
  cases hs : List.insertionSort peakRank (peakPairs x y) with
  | nil => rw [hs] at h; cases h
  | cons a as =>
    rw [hs] at h
    simp only [List.map_cons, List.cons.injEq] at h
    obtain ⟨h1, -⟩ := h
    refine ⟨a.2, ?_, ?_⟩
    · have hm : a ∈ List.insertionSort peakRank (peakPairs x y) := by
        rw [hs]
        exact List.mem_cons_self a as
      have := (List.mem_insertionSort peakRank).mp hm
      rw [← h1, Prod.mk.eta]
      exact this
    · intro pq hpq
      have hmem : pq ∈ a :: as := by
        rw [← hs]
        exact (List.mem_insertionSort peakRank).mpr hpq
      have hsorted : List.Sorted peakRank (a :: as) := by
        rw [← hs]
        exact List.sorted_insertionSort peakRank (peakPairs x y)
      rcases List.mem_cons.mp hmem with heq | htl
      · subst heq
        exact ⟨le_refl _, fun _ => le_of_eq h1.symm⟩
      · have hr : peakRank a pq := List.rel_of_sorted_cons hsorted pq htl
        rcases hr with hlt | ⟨heq, hle⟩
        · exact ⟨le_of_lt hlt, fun habs => absurd (habs ▸ hlt) (lt_irrefl _)⟩
        · exact ⟨le_of_eq heq.symm, fun _ => h1 ▸ hle⟩

/-- C5: whenever the masked (lag > cutoff) autocorrelation curve has at
least one strict interior peak, `acf_rotation` succeeds and returns the lag
of the highest-ranked peak: a peak lag above the cutoff whose height is
maximal among all peaks of the masked curve, with ties broken by the
smallest lag. -/
theorem acf_rotation_tallest_peak (st : RotationState) (cutoff : ℚ)
    (lags acf : List ℚ)
    (hne : peakPairs (maskGT cutoff lags acf).1 (maskGT cutoff lags acf).2 ≠ []) :
    ∃ xp yp,
      acf_rotation st cutoff lags acf =
        .ok ({ st with
                 lags := (maskGT cutoff lags acf).1
                 acf := (maskGT cutoff lags acf).2
                 acf_period := xp }, xp) ∧
      (xp, yp) ∈ peakPairs (maskGT cutoff lags acf).1 (maskGT cutoff lags acf).2 ∧
      cutoff < xp ∧
      ∀ pq ∈ peakPairs (maskGT cutoff lags acf).1 (maskGT cutoff lags acf).2,
        pq.2 ≤ yp ∧ (pq.2 = yp → xp ≤ pq.1) := by
  cases hst : (get_peak_statistics (maskGT cutoff lags acf).1
      (maskGT cutoff lags acf).2).1 with
  | nil =>
    exfalso
    apply hne
    simp only [get_peak_statistics] at hst
    have hperm := List.perm_insertionSort peakRank
      (peakPairs (maskGT cutoff lags acf).1 (maskGT cutoff lags acf).2)
    have : List.insertionSort peakRank
        (peakPairs (maskGT cutoff lags acf).1 (maskGT cutoff lags acf).2) = [] :=
      List.map_eq_nil_iff.mp hst
    rw [this] at hperm
    exact (List.Perm.nil_eq hperm).symm
  | cons xp rest =>
    obtain ⟨yp, hmem, hdom⟩ := get_peak_statistics_head _ _ xp rest hst
    refine ⟨xp, yp, ?_, hmem, ?_, hdom⟩
    · simp only [acf_rotation, hst]
    · apply maskGT_fst_mem cutoff lags acf
      exact peakPairs_fst_mem _ _
        ((maskGT_length_eq cutoff lags acf)) (xp, yp) hmem

/-- Witness for C5: the curve with lags `[0, 1, 2, 3, 4]` and correlations
`[0, 5, 1, 3, 0]` masked above cutoff 0 has exactly one peak, at lag 3. -/
theorem acf_rotation_tallest_peak_witness :
    ∃ xp yp,
      acf_rotation stF 0 [0, 1, 2, 3, 4] [0, 5, 1, 3, 0] =
        .ok ({ stF with
                 lags := (maskGT 0 [0, 1, 2, 3, 4] [0, 5, 1, 3, 0]).1
                 acf := (maskGT 0 [0, 1, 2, 3, 4] [0, 5, 1, 3, 0]).2
                 acf_period := xp }, xp) ∧
      (xp, yp) ∈ peakPairs (maskGT 0 [0, 1, 2, 3, 4] [0, 5, 1, 3, 0]).1
        (maskGT 0 [0, 1, 2, 3, 4] [0, 5, 1, 3, 0]).2 ∧
      (0 : ℚ) < xp ∧
      ∀ pq ∈ peakPairs (maskGT 0 [0, 1, 2, 3, 4] [0, 5, 1, 3, 0]).1
          (maskGT 0 [0, 1, 2, 3, 4] [0, 5, 1, 3, 0]).2,
        pq.2 ≤ yp ∧ (pq.2 = yp → xp ≤ pq.1) :=
  acf_rotation_tallest_peak stF 0 [0, 1, 2, 3, 4] [0, 5, 1, 3, 0] (by decide)

end Starspot
